import Mathlib

/-!
Verification development for the blockchain-to-database synchronization
indexer of the FractionalStay repository.

The repository ships the indexer's design as an architecture document
(reorg checkpoints, a raw event log with a `(transaction_hash, log_index)`
unique constraint, idempotent event handlers, and a reconciliation driver),
but the indexer implementation itself is not among the provided sources.
All definitions below are therefore modelled from the specification's
description of the data model, the reorg detector, the event handlers and
the reconciliation driver, and the theorems settle the specification's
claims against that model.
-/

namespace FractionalStay

/-- Modelled from the spec: wallet addresses are strings; we represent them
as lists of characters so that the `address.toLowerCase()` normalization of
the Address Normalization rule is `List.map Char.toLower`. -/
abbrev Addr := List Char

/-- Modelled from the spec: `const wallet = address.toLowerCase()` — every
handler normalizes wallet addresses to lowercase before using them as a
natural key. -/
def normAddr (a : Addr) : Addr := a.map Char.toLower

/-- Modelled from the spec: the deduplication key of a physical event —
the `(transactionHash, logIndex)` pair carrying the RawEvent unique
constraint. -/
abbrev EventKey := String × Nat

/-- Modelled from the spec: the decoded argument payload of a
`SharesPurchased(tokenId, buyer, amount, totalPrice)` event, the event type
whose handler the architecture notes spell out. -/
structure SharesPurchasedArgs where
  tokenId : Nat
  buyer : Addr
  amount : Nat
  totalPrice : Nat
  deriving DecidableEq, Repr

/-- Modelled from the spec: a typed domain event produced by the Event
Decoder; it carries the chain position of the underlying log. -/
structure DecodedEvent where
  blockNumber : Nat
  txHash : String
  logIndex : Nat
  args : SharesPurchasedArgs
  deriving DecidableEq, Repr

/-- Deduplication key of a decoded event. -/
def DecodedEvent.key (e : DecodedEvent) : EventKey := (e.txHash, e.logIndex)

/-- Modelled from the spec: a raw log entry as returned by
`getLogs(fromBlock, toBlock, ...)` — chain position plus the undecoded
event payload (event signature, numeric fields, address field). -/
structure RawLog where
  blockNumber : Nat
  txHash : String
  logIndex : Nat
  eventSig : String
  numData : List Nat
  addrData : Addr
  deriving DecidableEq, Repr

/-- Modelled from the spec: the tagged errors of the Event Decoder —
`decode` returns an error value rather than throwing. -/
inductive DecodeError where
  | unknownEvent
  | badData
  | invalidAmount
  deriving DecidableEq, Repr

/-- Modelled from the spec: the pure, deterministic decoder
`decode(RawLog, eventABI) -> DecodedEvent | DecodeError`: a known event
signature with a well-formed payload decodes; anything malformed or
unrecognized yields a tagged error. -/
def decode (log : RawLog) : Except DecodeError DecodedEvent :=
  if log.eventSig = "SharesPurchased" then
    match log.numData with
    | [tokenId, amount, totalPrice] =>
        if amount = 0 then .error .invalidAmount
        else .ok { blockNumber := log.blockNumber, txHash := log.txHash,
                   logIndex := log.logIndex,
                   args := { tokenId := tokenId, buyer := log.addrData,
                             amount := amount, totalPrice := totalPrice } }
    | _ => .error .badData
  else .error .unknownEvent

/-- Modelled from the spec: a row of the append-only `blockchain_events`
raw event log — event name, chain position, and the decoded argument
payload, unique on `(transactionHash, logIndex)`. -/
structure RawEvent where
  eventName : String
  blockNumber : Nat
  txHash : String
  logIndex : Nat
  args : SharesPurchasedArgs
  deriving DecidableEq, Repr

/-- Deduplication key of a stored raw event. -/
def RawEvent.key (re : RawEvent) : EventKey := (re.txHash, re.logIndex)

/-- The RawEvent row a decoded event is stored as. -/
def DecodedEvent.toRawEvent (e : DecodedEvent) : RawEvent :=
  { eventName := "SharesPurchased", blockNumber := e.blockNumber,
    txHash := e.txHash, logIndex := e.logIndex, args := e.args }

/-- Modelled from the spec: a `user_portfolio` row — the DerivedEntity
balance row keyed by the natural key (wallet address, token id). The row
stores the share balance and the purchase price per share recorded when
the row was created. -/
structure PortfolioRow where
  sharesOwned : Nat
  pricePerShare : Nat
  deriving DecidableEq, Repr

/-- Modelled from the spec: the slice of a `properties` row the handler
touches — the available-share counter decremented on each purchase. -/
structure PropertyRow where
  availableShares : Int
  deriving DecidableEq, Repr

/-- Modelled from the spec: the DerivedEntity state — the relational
projections computed solely from RawEvents (portfolio balances keyed by
wallet + token, property availability keyed by token). -/
structure DerivedState where
  portfolio : List ((Addr × Nat) × PortfolioRow)
  properties : List (Nat × PropertyRow)
  deriving DecidableEq, Repr

/-- The empty DerivedEntity state. -/
def emptyDerived : DerivedState := { portfolio := [], properties := [] }

/-- Upsert into an association list by natural key: update the existing
row if the key is present, append a fresh row otherwise. -/
def upsertRow {κ ρ : Type} [DecidableEq κ] (rows : List (κ × ρ)) (k : κ)
    (f : Option ρ → ρ) : List (κ × ρ) :=
  match rows with
  | [] => [(k, f none)]
  | (k', r) :: rest =>
      if k' = k then (k', f (some r)) :: rest
      else (k', r) :: upsertRow rest k f

/-- Update an association-list row in place if the key is present; no-op
otherwise (an SQL `UPDATE ... WHERE key = k`). -/
def updateRow {κ ρ : Type} [DecidableEq κ] (rows : List (κ × ρ)) (k : κ)
    (f : ρ → ρ) : List (κ × ρ) :=
  match rows with
  | [] => []
  | (k', r) :: rest =>
      if k' = k then (k', f r) :: rest
      else (k', r) :: updateRow rest k f

/-- Modelled from the spec: the derived mutations of
`handleSharesPurchased` — decrement `properties.available_shares`, then
upsert the buyer's `user_portfolio` row keyed by the lowercased wallet
address and token id: increment shares if the row exists, create it
(recording the purchase price per share) otherwise. -/
def applyDerivedPure (d : DerivedState) (a : SharesPurchasedArgs) : DerivedState :=
  { portfolio :=
      upsertRow d.portfolio (normAddr a.buyer, a.tokenId)
        (fun r? =>
          match r? with
          | some r => { r with sharesOwned := r.sharesOwned + a.amount }
          | none => { sharesOwned := a.amount,
                      pricePerShare := a.totalPrice / a.amount }),
    properties :=
      updateRow d.properties a.tokenId
        (fun p => { availableShares := p.availableShares - (a.amount : Int) }) }

/-- The keys currently present in the raw event log. -/
def rawKeys (l : List RawEvent) : List EventKey := l.map RawEvent.key

/-- Modelled from the spec: the per-batch transactional state — the raw
event log, the DerivedEntity state, and the dead-letter record of logs
that failed to decode (kept so a decode failure can be re-attempted and
is never silently lost). -/
structure BatchState where
  rawLog : List RawEvent
  derived : DerivedState
  deadLetter : List RawLog
  deriving DecidableEq, Repr

/-- The empty batch state. -/
def emptyBatch : BatchState :=
  { rawLog := [], derived := emptyDerived, deadLetter := [] }

deriving instance DecidableEq for Except

/-- Modelled from the spec: one event handler invocation, failure-free
case. Step 1 inserts the RawEvent row; a `(transactionHash, logIndex)`
uniqueness hit short-circuits the handler without reapplying derived
mutations. Step 2 applies the derived mutations. -/
def pureHandleEvent (bs : BatchState) (e : DecodedEvent) : BatchState :=
  if e.key ∈ rawKeys bs.rawLog then bs
  else { bs with rawLog := bs.rawLog ++ [e.toRawEvent],
                 derived := applyDerivedPure bs.derived e.args }

/-- Modelled from the spec: processing of one fetched log, failure-free
case: decode it; on a decode error keep a dead-letter record and continue;
otherwise run the event handler. -/
def pureProcessLog (bs : BatchState) (log : RawLog) : BatchState :=
  match decode log with
  | .error _ => { bs with deadLetter := bs.deadLetter ++ [log] }
  | .ok e => pureHandleEvent bs e

/-- Failure-free processing of a whole fetched batch, log by log in the
fetched `(blockNumber, logIndex)` order. -/
def pureProcessBatch (bs : BatchState) (logs : List RawLog) : BatchState :=
  match logs with
  | [] => bs
  | log :: rest => pureProcessBatch (pureProcessLog bs log) rest

/-- Modelled from the spec: one event handler invocation inside the batch
transaction. `writeFails` is the environment's oracle for transient
database write failures: when the derived mutation for a fresh event
throws, the handler fails and the whole batch transaction will roll back.
A duplicate insert is a benign no-op, never a failure. -/
def handleEventTx (writeFails : EventKey → Bool) (bs : BatchState)
    (e : DecodedEvent) : Except Unit BatchState :=
  if e.key ∈ rawKeys bs.rawLog then .ok bs
  else if writeFails e.key then .error ()
  else .ok { bs with rawLog := bs.rawLog ++ [e.toRawEvent],
                     derived := applyDerivedPure bs.derived e.args }

/-- Modelled from the spec: transactional processing of one fetched log:
a decode error is recorded in the dead letter and does not halt the batch;
a decoded event goes through its handler, whose failure aborts the
transaction. -/
def processLogTx (writeFails : EventKey → Bool) (bs : BatchState)
    (log : RawLog) : Except Unit BatchState :=
  match decode log with
  | .error _ => .ok { bs with deadLetter := bs.deadLetter ++ [log] }
  | .ok e => handleEventTx writeFails bs e

/-- Modelled from the spec: the single database transaction wrapping one
fetched batch — logs are processed in order and any handler failure aborts
the whole transaction. -/
def processBatchTx (writeFails : EventKey → Bool) (bs : BatchState) :
    List RawLog → Except Unit BatchState
  | [] => .ok bs
  | log :: rest =>
      match processLogTx writeFails bs log with
      | .error e => .error e
      | .ok bs' => processBatchTx writeFails bs' rest

/-- Modelled from the spec: replay — recompute the DerivedEntity state from
the stored RawEvents alone, in stored order, starting from the empty state. -/
def replay (l : List RawEvent) : DerivedState :=
  l.foldl (fun d re => applyDerivedPure d re.args) emptyDerived

/-- Modelled from the spec: the per-contract checkpoint cursor of the
`indexer_state` table. The checkpoint hash is optional because the first
run inserts a zero-valued checkpoint with no hash. -/
structure Checkpoint where
  lastProcessedBlock : Nat
  lastProcessedBlockHash : String
  lastCheckpointBlock : Nat
  lastCheckpointBlockHash : Option String
  deriving DecidableEq, Repr

/-- Modelled from the spec: the zero-valued checkpoint returned when no
checkpoint exists yet (block 0, no hash). -/
def zeroCheckpoint : Checkpoint :=
  { lastProcessedBlock := 0, lastProcessedBlockHash := "",
    lastCheckpointBlock := 0, lastCheckpointBlockHash := none }

/-- Modelled from the spec: the whole persisted state the indexer owns for
one watched contract: checkpoint cursor plus the transactional tables. -/
structure IndexerState where
  checkpoint : Checkpoint
  data : BatchState
  deriving DecidableEq, Repr

/-- The state of a fresh indexer: zero-valued checkpoint, empty tables. -/
def initialState : IndexerState :=
  { checkpoint := zeroCheckpoint, data := emptyBatch }

/-- Modelled from the spec: the indexer's operational tuning parameters —
confirmation depth, maximum batch size, checkpoint interval N. -/
structure Config where
  confirmationDepth : Nat
  maxBatchSize : Nat
  checkpointInterval : Nat
  deriving DecidableEq, Repr

/-- Modelled from the spec: one poll cycle's view of the external world —
the chain (block hashes, latest height, logs per range) and the database's
transient write-failure behaviour during this cycle. -/
structure Env where
  hashAt : Nat → String
  latest : Nat
  logsIn : Nat → Nat → List RawLog
  writeFails : EventKey → Bool

/-- The block processing resumes from: `lastProcessedBlock + 1`. -/
def nextFromBlock (st : IndexerState) : Nat :=
  st.checkpoint.lastProcessedBlock + 1

/-- Modelled from the spec: the reorg rollback procedure — delete all
RawEvents with `blockNumber >= lastCheckpointBlock`, rebuild the
DerivedEntity state from the remaining RawEvents (the full
rebuild-from-RawEvents option the spec sanctions), and set
`lastProcessedBlock = lastCheckpointBlock - 1`. -/
def rollbackState (st : IndexerState) : IndexerState :=
  let cb := st.checkpoint.lastCheckpointBlock
  let keep := st.data.rawLog.filter (fun re => re.blockNumber < cb)
  { checkpoint := { st.checkpoint with lastProcessedBlock := cb - 1 },
    data := { rawLog := keep, derived := replay keep,
              deadLetter := st.data.deadLetter } }

/-- Modelled from the spec: the Reorg Detector — re-fetch the chain's hash
at `lastCheckpointBlock` and compare it to the stored checkpoint hash; on a
match (or when no checkpoint hash exists yet) proceed unchanged, on a
mismatch run the rollback procedure. -/
def detectAndRollback (env : Env) (st : IndexerState) : IndexerState :=
  match st.checkpoint.lastCheckpointBlockHash with
  | none => st
  | some h =>
      if env.hashAt st.checkpoint.lastCheckpointBlock = h then st
      else rollbackState st

/-- The upper bound of the next batch:
`min (latestChainBlock - confirmationDepth, lastProcessedBlock + maxBatchSize)`. -/
def batchToBlock (cfg : Config) (env : Env) (st : IndexerState) : Nat :=
  min (env.latest - cfg.confirmationDepth)
    (st.checkpoint.lastProcessedBlock + cfg.maxBatchSize)

/-- Modelled from the spec: committing a successful batch — the checkpoint
is saved last: `lastProcessedBlock := toBlock`, and when a new multiple of
the checkpoint interval has been reached, `lastCheckpointBlock/Hash` are
advanced to that height. -/
def commitBatch (cfg : Config) (env : Env) (toBlock : Nat)
    (st : IndexerState) (bs : BatchState) : IndexerState :=
  let cp := st.checkpoint
  let c := toBlock / cfg.checkpointInterval * cfg.checkpointInterval
  let cp' :=
    if cp.lastCheckpointBlock < c then
      { lastProcessedBlock := toBlock,
        lastProcessedBlockHash := env.hashAt toBlock,
        lastCheckpointBlock := c,
        lastCheckpointBlockHash := some (env.hashAt c) }
    else
      { cp with lastProcessedBlock := toBlock,
                lastProcessedBlockHash := env.hashAt toBlock }
  { checkpoint := cp', data := bs }

/-- Modelled from the spec: one cycle of the Reconciliation Driver — load
state, run the Reorg Detector (rolling back if needed), compute the batch
range, sleep if no new confirmed blocks, otherwise fetch the range's logs,
run them through the handlers inside one transaction, and on success commit
the batch and save the checkpoint; on a failed transaction keep the
pre-batch state (retry next tick). -/
def driverCycle (cfg : Config) (env : Env) (st : IndexerState) : IndexerState :=
  let st1 := detectAndRollback env st
  let toBlock := batchToBlock cfg env st1
  if toBlock ≤ st1.checkpoint.lastProcessedBlock then st1
  else
    match processBatchTx env.writeFails st1.data
        (env.logsIn (nextFromBlock st1) toBlock) with
    | .error _ => st1
    | .ok bs => commitBatch cfg env toBlock st1 bs

/-- A run of the driver across successive poll cycles, each cycle seeing
its own external environment. -/
def runCycles (cfg : Config) (st : IndexerState) : List Env → IndexerState
  | [] => st
  | env :: rest => runCycles cfg (driverCycle cfg env st) rest

/-- The states of the Checkpoint Store the driver can reach: the initial
zero-valued state, and anything produced from a reachable state by one
driver cycle under some configuration and environment. -/
inductive Reached : IndexerState → Prop where
  | init : Reached initialState
  | cycle (cfg : Config) (env : Env) (st : IndexerState) :
      Reached st → Reached (driverCycle cfg env st)

/-- Modelled from the spec: the observable micro-state inside one handler
invocation — which events have their RawEvent row present and which have
had their derived mutations applied. Used to state the per-event state
machine `Recorded(RawEvent)` before `Applied(DerivedEntity updated)`. -/
structure MicroState where
  recordedKeys : List EventKey
  appliedKeys : List EventKey
  deriving DecidableEq, Repr

/-- Every event whose derived mutations have been applied has its RawEvent
row present. -/
def appliedImpliesRecorded (ms : MicroState) : Prop :=
  ∀ k ∈ ms.appliedKeys, k ∈ ms.recordedKeys

instance (ms : MicroState) : Decidable (appliedImpliesRecorded ms) :=
  List.decidableBAll _ _

/-- Modelled from the spec: the intermediate micro-states a handler passes
through for one event — a duplicate is skipped with no state change; a
fresh event first gets its RawEvent row inserted (recorded but not yet
applied) and only then its derived mutations applied. -/
def handlerMicroStates (ms : MicroState) (e : DecodedEvent) : List MicroState :=
  if e.key ∈ ms.recordedKeys then []
  else [{ recordedKeys := ms.recordedKeys ++ [e.key],
          appliedKeys := ms.appliedKeys },
        { recordedKeys := ms.recordedKeys ++ [e.key],
          appliedKeys := ms.appliedKeys ++ [e.key] }]

/-- The micro-state a handler leaves behind for one event. -/
def handlerMicroFinal (ms : MicroState) (e : DecodedEvent) : MicroState :=
  if e.key ∈ ms.recordedKeys then ms
  else { recordedKeys := ms.recordedKeys ++ [e.key],
         appliedKeys := ms.appliedKeys ++ [e.key] }

/-- All micro-states passed through while a batch of events runs through
the handlers, in order. -/
def batchMicroTrace (ms : MicroState) : List DecodedEvent → List MicroState
  | [] => []
  | e :: rest =>
      handlerMicroStates ms e ++ batchMicroTrace (handlerMicroFinal ms e) rest

/-- Concrete `SharesPurchased` event used by witnesses: a purchase of 10
shares. -/
def evTen : DecodedEvent :=
  { blockNumber := 50, txHash := "tA", logIndex := 0,
    args := { tokenId := 1, buyer := ['0', 'x', 'a'], amount := 10,
              totalPrice := 100 } }

/-- Batch state holding exactly the first delivery of `evTen`. -/
def bsTen : BatchState := pureHandleEvent emptyBatch evTen

/-- Concrete event at (block 50, log index 1): 5 shares for 50 in total. -/
def evFirst : DecodedEvent :=
  { blockNumber := 50, txHash := "t1", logIndex := 1,
    args := { tokenId := 1, buyer := ['0', 'x', 'a'], amount := 5,
              totalPrice := 50 } }

/-- Concrete event at (block 50, log index 2): 5 more shares for 100 in
total, same buyer and token as `evFirst`. -/
def evSecond : DecodedEvent :=
  { blockNumber := 50, txHash := "t1", logIndex := 2,
    args := { tokenId := 1, buyer := ['0', 'x', 'a'], amount := 5,
              totalPrice := 100 } }

/-- A raw event at a given block, used to seed checkpoint scenarios. -/
def seedEvent (n : Nat) : RawEvent :=
  { eventName := "SharesPurchased", blockNumber := n, txHash := toString n,
    logIndex := 0,
    args := { tokenId := 1, buyer := ['0', 'x', 'a'], amount := 1,
              totalPrice := 1 } }

/-- Concrete indexer state for the reorg scenario: checkpoint at block 100
with hash H1, raw events seeded for blocks 95 through 110. -/
def stReorg : IndexerState :=
  { checkpoint := { lastProcessedBlock := 110, lastProcessedBlockHash := "x",
                    lastCheckpointBlock := 100,
                    lastCheckpointBlockHash := some "H1" },
    data := { rawLog := [seedEvent 95, seedEvent 99, seedEvent 100,
                         seedEvent 105, seedEvent 110],
              derived := replay [seedEvent 95, seedEvent 99, seedEvent 100,
                                 seedEvent 105, seedEvent 110],
              deadLetter := [] } }

/-- Chain environment agreeing with the stored checkpoint hash H1. -/
def envHit : Env :=
  { hashAt := fun _ => "H1", latest := 0, logsIn := fun _ _ => [],
    writeFails := fun _ => false }

/-- Chain environment whose hash at every height is H2, disagreeing with
the stored checkpoint hash H1. -/
def envMiss : Env :=
  { hashAt := fun _ => "H2", latest := 0, logsIn := fun _ _ => [],
    writeFails := fun _ => false }

/-- Concrete driver configuration: confirmation depth 3, batch cap 1000,
checkpoint interval 100. -/
def cfgEx : Config :=
  { confirmationDepth := 3, maxBatchSize := 1000, checkpointInterval := 100 }

/-- Environment for the first concrete driver cycle: hash H1 everywhere,
chain head at 103, no logs, no write failures. -/
def envFirstCycle : Env :=
  { hashAt := fun _ => "H1", latest := 103, logsIn := fun _ _ => [],
    writeFails := fun _ => false }

/-- Environment for the second concrete driver cycle: the chain has
reorganized (hash H2 everywhere) and exposes no new confirmed blocks. -/
def envReorgCycle : Env :=
  { hashAt := fun _ => "H2", latest := 0, logsIn := fun _ _ => [],
    writeFails := fun _ => false }

/-- The state reached by one committing cycle followed by one rollback
cycle: checkpoint block 100, processed block 99. -/
def postRollbackState : IndexerState :=
  driverCycle cfgEx envReorgCycle (driverCycle cfgEx envFirstCycle initialState)

/-- A well-formed raw log of a `SharesPurchased` event at block `n` with
the given transaction hash. -/
def goodLog (n : Nat) (tx : String) : RawLog :=
  { blockNumber := n, txHash := tx, logIndex := 0,
    eventSig := "SharesPurchased", numData := [1, 2, 20],
    addrData := ['0', 'x', 'a'] }

/-- A malformed raw log: recognized event signature but a payload of the
wrong shape, so decoding fails with `badData`. -/
def badLog : RawLog :=
  { blockNumber := 52, txHash := "t3", logIndex := 0,
    eventSig := "SharesPurchased", numData := [1], addrData := [] }

/-- Concrete batch of five logs in which the third is malformed. -/
def fiveLogs : List RawLog :=
  [goodLog 50 "t1", goodLog 51 "t2", badLog, goodLog 53 "t4", goodLog 54 "t5"]

/-- Environment whose database fails the derived write for the event of
`goodLog 50 "t1"`: the batch transaction must abort and roll back. -/
def envWriteFail : Env :=
  { hashAt := fun _ => "H1", latest := 103,
    logsIn := fun _ _ => [goodLog 50 "t1"],
    writeFails := fun k => decide (k = ("t1", 0)) }

/-- Abbreviation for a `SharesPurchased` argument record. -/
def mkArgs (tid : Nat) (a : Addr) (amt price : Nat) : SharesPurchasedArgs :=
  { tokenId := tid, buyer := a, amount := amt, totalPrice := price }

/-! Helper lemmas. -/

theorem char_toNat_ofNat (n : Nat) (h : n.isValidChar) :
    (Char.ofNat n).toNat = n := by
  rw [Char.ofNat, dif_pos h]
  rfl

theorem char_toLower_idem (c : Char) : c.toLower.toLower = c.toLower := by
  unfold Char.toLower
  by_cases h : c.toNat ≥ 65 ∧ c.toNat ≤ 90
  · have hv : (c.toNat + 32).isValidChar := by
      exact Or.inl (by omega)
    rw [if_pos h, char_toNat_ofNat _ hv, if_neg (by omega)]
  · rw [if_neg h, if_neg h]

theorem normAddr_idem (a : Addr) : normAddr (normAddr a) = normAddr a := by
  induction a with
  | nil => rfl
  | cons c t ih =>
      simp only [normAddr, List.map_cons, List.map_map] at *
      exact List.cons_eq_cons.mpr ⟨char_toLower_idem c, ih⟩

theorem upsertRow_keys_eq {κ ρ : Type} [DecidableEq κ] (rows : List (κ × ρ))
    (k : κ) (f : Option ρ → ρ) :
    (upsertRow rows k f).map Prod.fst = rows.map Prod.fst ∨
    (upsertRow rows k f).map Prod.fst = rows.map Prod.fst ++ [k] := by
  induction rows with
  | nil => exact Or.inr rfl
  | cons hd tl ih =>
      by_cases hkey : hd.1 = k
      · exact Or.inl (by simp [upsertRow, hkey])
      · rcases ih with h1 | h1
        · exact Or.inl (by simp [upsertRow, hkey, h1])
        · exact Or.inr (by simp [upsertRow, hkey, h1])

theorem upsertRow_keys {κ ρ : Type} [DecidableEq κ] (rows : List (κ × ρ))
    (k : κ) (f : Option ρ → ρ) :
    ∀ k' ∈ (upsertRow rows k f).map Prod.fst,
      k' ∈ rows.map Prod.fst ∨ k' = k := by
  intro k' hk'
  rcases upsertRow_keys_eq rows k f with h1 | h1
  · exact Or.inl (h1 ▸ hk')
  · rw [h1, List.mem_append, List.mem_singleton] at hk'
    exact hk'

/-! Claim theorems. -/

/-- C8: applying two balance-affecting `SharesPurchased` events for the
same buyer and token out of (blockNumber, logIndex) order — `evFirst` at
log index 1 and `evSecond` at log index 2 of block 50 — produces a
different DerivedEntity state than applying them in ascending order. -/
theorem ordering_sensitivity :
    (pureHandleEvent (pureHandleEvent emptyBatch evFirst) evSecond).derived ≠
    (pureHandleEvent (pureHandleEvent emptyBatch evSecond) evFirst).derived := by
  decide

/-- C3: a second delivery of an event whose (transactionHash, logIndex)
pair already exists in the raw event log is rejected by the unique
constraint and the handler short-circuits: it returns the state unchanged,
as a success (benign no-op), not as an error, so derived mutations are
never reapplied. -/
theorem duplicate_event_benign_noop (writeFails : EventKey → Bool)
    (bs : BatchState) (e : DecodedEvent)
    (h : e.key ∈ rawKeys bs.rawLog) :
    handleEventTx writeFails bs e = .ok bs := by
  simp [handleEventTx, h]

/-- Witness for C3: after a first delivery of the 10-share purchase
`evTen`, its key is in the raw event log, and redelivering it through the
handler is a successful no-op — the balance increment of +10 stays applied
exactly once. -/
theorem duplicate_event_benign_noop_witness :
    evTen.key ∈ rawKeys bsTen.rawLog ∧
    handleEventTx (fun _ => false) bsTen evTen = .ok bsTen :=
  ⟨by decide, duplicate_event_benign_noop (fun _ => false) bsTen evTen (by decide)⟩

/-- C10: wallet addresses are lowercased before use as the natural key, so
two differently-cased representations of the same address produce
identical handler results (the same derived row is updated, no second row
is created); every portfolio key the handler writes is either an existing
key or the normalized (lowercased) one, and normalization is idempotent,
so written keys satisfy the store's lowercase constraint. -/
theorem address_normalization (d : DerivedState) (a1 a2 : Addr)
    (tid amt price : Nat) (h : normAddr a1 = normAddr a2) :
    applyDerivedPure d (mkArgs tid a1 amt price) =
      applyDerivedPure d (mkArgs tid a2 amt price) ∧
    (∀ k ∈ (applyDerivedPure d (mkArgs tid a1 amt price)).portfolio.map Prod.fst,
      k ∈ d.portfolio.map Prod.fst ∨ k = (normAddr a1, tid)) ∧
    normAddr (normAddr a1) = normAddr a1 := by
  refine ⟨by simp [applyDerivedPure, mkArgs, h], ?_, normAddr_idem a1⟩
  intro k hk
  exact upsertRow_keys d.portfolio (normAddr a1, tid) _ k hk

/-- Witness for C10: the upper-cased address `0xAB` and the lower-cased
`0xab` normalize identically, so the handler updates the same derived row
for both. -/
theorem address_normalization_witness :
    applyDerivedPure emptyDerived (mkArgs 1 ['0', 'x', 'A', 'B'] 5 50) =
      applyDerivedPure emptyDerived (mkArgs 1 ['0', 'x', 'a', 'b'] 5 50) :=
  (address_normalization emptyDerived ['0', 'x', 'A', 'B'] ['0', 'x', 'a', 'b']
    1 5 50 (by decide)).1

/-- C1: for every checkpoint state with a stored checkpoint hash, the
Reorg Detector run before a batch behaves as specified. If the chain's
hash at `lastCheckpointBlock` equals the stored hash, no rollback occurs
and processing proceeds from `lastProcessedBlock + 1`. If it differs, the
resulting raw event log is exactly the old log restricted to
`blockNumber < lastCheckpointBlock` — every RawEvent below that block is
kept and every kept RawEvent comes from the old log and lies below that
block — and `lastProcessedBlock` becomes `lastCheckpointBlock - 1`. -/
theorem reorg_detector_spec (env : Env) (st : IndexerState) (h : String)
    (hh : st.checkpoint.lastCheckpointBlockHash = some h) :
    (env.hashAt st.checkpoint.lastCheckpointBlock = h →
      detectAndRollback env st = st ∧
      nextFromBlock (detectAndRollback env st) =
        st.checkpoint.lastProcessedBlock + 1) ∧
    (env.hashAt st.checkpoint.lastCheckpointBlock ≠ h →
      (detectAndRollback env st).data.rawLog =
        st.data.rawLog.filter
          (fun re => re.blockNumber < st.checkpoint.lastCheckpointBlock) ∧
      (∀ re ∈ st.data.rawLog,
        re.blockNumber < st.checkpoint.lastCheckpointBlock →
          re ∈ (detectAndRollback env st).data.rawLog) ∧
      (∀ re ∈ (detectAndRollback env st).data.rawLog,
        re.blockNumber < st.checkpoint.lastCheckpointBlock ∧
          re ∈ st.data.rawLog) ∧
      (detectAndRollback env st).checkpoint.lastProcessedBlock =
        st.checkpoint.lastCheckpointBlock - 1) := by
  constructor
  · intro heq
    simp only [detectAndRollback, hh]
    rw [if_pos heq]
    exact ⟨rfl, rfl⟩
  · intro hne
    simp only [detectAndRollback, hh]
    rw [if_neg hne]
    refine ⟨rfl, ?_, ?_, rfl⟩
    · intro re hre hlt
      exact List.mem_filter.mpr ⟨hre, by simpa using hlt⟩
    · intro re hre
      have h2 := List.mem_filter.mp hre
      exact ⟨by simpa using h2.2, h2.1⟩

/-- Witness for C1: with a checkpoint at block 100 whose stored hash is
H1 and raw events seeded for blocks 95 through 110 — when the chain still
reports H1, the detector changes nothing; when the chain reports H2, the
rollback keeps exactly the events of blocks 95 and 99 and rewinds
`lastProcessedBlock` to 99. -/
theorem reorg_detector_spec_witness :
    detectAndRollback envHit stReorg = stReorg ∧
    (detectAndRollback envMiss stReorg).data.rawLog =
      stReorg.data.rawLog.filter
        (fun re => re.blockNumber < stReorg.checkpoint.lastCheckpointBlock) ∧
    (detectAndRollback envMiss stReorg).checkpoint.lastProcessedBlock =
      stReorg.checkpoint.lastCheckpointBlock - 1 :=
  ⟨((reorg_detector_spec envHit stReorg "H1" rfl).1 rfl).1,
   ((reorg_detector_spec envMiss stReorg "H1" rfl).2 (by decide)).1,
   ((reorg_detector_spec envMiss stReorg "H1" rfl).2 (by decide)).2.2.2⟩

/-- C2: when the batch transaction fails — in particular when a RawEvent
insert succeeded inside the transaction but a later derived mutation threw
— the driver cycle leaves the persisted state exactly as it was before the
batch: the RawEvent insert is undone, no DerivedEntity row changes, and
the checkpoint does not advance. -/
theorem batch_failure_rolls_back (cfg : Config) (env : Env)
    (st : IndexerState) (e : Unit)
    (hfail : processBatchTx env.writeFails (detectAndRollback env st).data
        (env.logsIn (nextFromBlock (detectAndRollback env st))
          (batchToBlock cfg env (detectAndRollback env st))) = .error e) :
    driverCycle cfg env st = detectAndRollback env st := by
  rw [driverCycle]
  by_cases hto : batchToBlock cfg env (detectAndRollback env st) ≤
      (detectAndRollback env st).checkpoint.lastProcessedBlock
  · simp [hto]
  · simp [hto, hfail]

/-- Witness for C2: from the initial state, a batch whose single decoded
event hits a transient derived-write failure leaves the indexer state
exactly as it was — nothing committed, checkpoint not advanced. -/
theorem batch_failure_rolls_back_witness :
    driverCycle cfgEx envWriteFail initialState = initialState :=
  batch_failure_rolls_back cfgEx envWriteFail initialState () (by decide)

theorem pureProcessLog_rawLog_sub (bs : BatchState) (log : RawLog) :
    ∀ re ∈ bs.rawLog, re ∈ (pureProcessLog bs log).rawLog := by
  intro re hre
  cases hdec : decode log with
  | error err => simp only [pureProcessLog, hdec]; exact hre
  | ok e =>
      simp only [pureProcessLog, hdec, pureHandleEvent]
      by_cases hk : e.key ∈ rawKeys bs.rawLog
      · rw [if_pos hk]; exact hre
      · rw [if_neg hk]; exact List.mem_append_left _ hre

theorem pureProcessBatch_rawLog_sub (logs : List RawLog) :
    ∀ bs : BatchState, ∀ re ∈ bs.rawLog,
      re ∈ (pureProcessBatch bs logs).rawLog := by
  induction logs with
  | nil => intro bs re hre; exact hre
  | cons log rest ih =>
      intro bs re hre
      rw [pureProcessBatch]
      exact ih _ re (pureProcessLog_rawLog_sub bs log re hre)

theorem pureProcessBatch_rawKeys_sub (logs : List RawLog) (bs : BatchState)
    (k : EventKey) (hk : k ∈ rawKeys bs.rawLog) :
    k ∈ rawKeys (pureProcessBatch bs logs).rawLog := by
  rw [rawKeys, List.mem_map] at hk ⊢
  obtain ⟨re, hre, hkey⟩ := hk
  exact ⟨re, pureProcessBatch_rawLog_sub logs bs re hre, hkey⟩

theorem pureProcessLog_deadLetter_sub (bs : BatchState) (log : RawLog) :
    ∀ l ∈ bs.deadLetter, l ∈ (pureProcessLog bs log).deadLetter := by
  intro l hl
  cases hdec : decode log with
  | error err =>
      simp only [pureProcessLog, hdec]
      exact List.mem_append_left _ hl
  | ok e =>
      simp only [pureProcessLog, hdec, pureHandleEvent]
      by_cases hk : e.key ∈ rawKeys bs.rawLog
      · rw [if_pos hk]; exact hl
      · rw [if_neg hk]; exact hl

theorem pureProcessBatch_deadLetter_sub (logs : List RawLog) :
    ∀ bs : BatchState, ∀ l ∈ bs.deadLetter,
      l ∈ (pureProcessBatch bs logs).deadLetter := by
  induction logs with
  | nil => intro bs l hl; exact hl
  | cons log rest ih =>
      intro bs l hl
      rw [pureProcessBatch]
      exact ih _ l (pureProcessLog_deadLetter_sub bs log l hl)

theorem pureProcessBatch_records_ok (logs : List RawLog) :
    ∀ bs : BatchState, ∀ log ∈ logs, ∀ e : DecodedEvent, decode log = .ok e →
      e.key ∈ rawKeys (pureProcessBatch bs logs).rawLog := by
  induction logs with
  | nil => intro bs log hlog; cases hlog
  | cons hd rest ih =>
      intro bs log hlog e hdec
      rcases List.mem_cons.mp hlog with heq | hmem
      · subst heq
        rw [pureProcessBatch]
        apply pureProcessBatch_rawKeys_sub
        simp only [pureProcessLog, hdec, pureHandleEvent]
        by_cases hk : e.key ∈ rawKeys bs.rawLog
        · rw [if_pos hk]; exact hk
        · rw [if_neg hk]
          simp [rawKeys, DecodedEvent.toRawEvent, RawEvent.key, DecodedEvent.key]
      · rw [pureProcessBatch]
        exact ih _ log hmem e hdec

theorem pureProcessBatch_deadLetters_errors (logs : List RawLog) :
    ∀ bs : BatchState, ∀ log ∈ logs, ∀ err : DecodeError,
      decode log = .error err →
      log ∈ (pureProcessBatch bs logs).deadLetter := by
  induction logs with
  | nil => intro bs log hlog; cases hlog
  | cons hd rest ih =>
      intro bs log hlog err hdec
      rcases List.mem_cons.mp hlog with heq | hmem
      · subst heq
        rw [pureProcessBatch]
        apply pureProcessBatch_deadLetter_sub
        simp only [pureProcessLog, hdec]
        exact List.mem_append_right _ (List.mem_singleton.mpr rfl)
      · rw [pureProcessBatch]
        exact ih _ log hmem err hdec

theorem pureProcessBatch_provenance (logs : List RawLog) :
    ∀ bs : BatchState, ∀ re ∈ (pureProcessBatch bs logs).rawLog,
      re ∈ bs.rawLog ∨
        ∃ log ∈ logs, ∃ e : DecodedEvent,
          decode log = .ok e ∧ re = e.toRawEvent := by
  induction logs with
  | nil => intro bs re hre; exact Or.inl hre
  | cons hd rest ih =>
      intro bs re hre
      rw [pureProcessBatch] at hre
      rcases ih _ re hre with h1 | h1
      · cases hdec : decode hd with
        | error err =>
            simp only [pureProcessLog, hdec] at h1
            exact Or.inl h1
        | ok e =>
            simp only [pureProcessLog, hdec, pureHandleEvent] at h1
            by_cases hk : e.key ∈ rawKeys bs.rawLog
            · rw [if_pos hk] at h1; exact Or.inl h1
            · rw [if_neg hk] at h1
              rcases List.mem_append.mp h1 with h2 | h2
              · exact Or.inl h2
              · exact Or.inr ⟨hd, List.mem_cons_self hd rest, e, hdec,
                  (List.mem_singleton.mp h2)⟩
      · obtain ⟨log, hlog, e, hdec, hre'⟩ := h1
        exact Or.inr ⟨log, List.mem_cons_of_mem hd hlog, e, hdec, hre'⟩

theorem processBatchTx_noFail (logs : List RawLog) :
    ∀ bs : BatchState,
      processBatchTx (fun _ => false) bs logs =
        .ok (pureProcessBatch bs logs) := by
  induction logs with
  | nil => intro bs; rfl
  | cons log rest ih =>
      intro bs
      rw [processBatchTx, pureProcessBatch]
      have hstep : processLogTx (fun _ => false) bs log =
          .ok (pureProcessLog bs log) := by
        cases hdec : decode log with
        | error err => simp only [processLogTx, pureProcessLog, hdec]
        | ok e =>
            simp only [processLogTx, pureProcessLog, hdec, handleEventTx,
              pureHandleEvent]
            by_cases hk : e.key ∈ rawKeys bs.rawLog
            · rw [if_pos hk, if_pos hk]
            · rw [if_neg hk, if_neg hk, if_neg (by simp)]
      rw [hstep]
      exact ih _

theorem replay_snoc (l : List RawEvent) (re : RawEvent) :
    replay (l ++ [re]) = applyDerivedPure (replay l) re.args := by
  simp [replay, List.foldl_append]

theorem processLogTx_replay (writeFails : EventKey → Bool) (bs : BatchState)
    (log : RawLog) (bs' : BatchState)
    (hok : processLogTx writeFails bs log = .ok bs')
    (hr : bs.derived = replay bs.rawLog) :
    bs'.derived = replay bs'.rawLog := by
  cases hdec : decode log with
  | error err =>
      simp only [processLogTx, hdec] at hok
      cases hok
      exact hr
  | ok e =>
      simp only [processLogTx, hdec, handleEventTx] at hok
      by_cases hk : e.key ∈ rawKeys bs.rawLog
      · rw [if_pos hk] at hok
        cases hok
        exact hr
      · rw [if_neg hk] at hok
        by_cases hf : writeFails e.key
        · rw [if_pos hf] at hok; cases hok
        · rw [if_neg hf] at hok
          cases hok
          simp only
          rw [replay_snoc, hr]
          rfl

theorem processBatchTx_replay (logs : List RawLog) :
    ∀ (writeFails : EventKey → Bool) (bs bs' : BatchState),
      processBatchTx writeFails bs logs = .ok bs' →
      bs.derived = replay bs.rawLog →
      bs'.derived = replay bs'.rawLog := by
  induction logs with
  | nil =>
      intro writeFails bs bs' hok hr
      cases hok
      exact hr
  | cons log rest ih =>
      intro writeFails bs bs' hok hr
      rw [processBatchTx] at hok
      cases hstep : processLogTx writeFails bs log with
      | error err => rw [hstep] at hok; cases hok
      | ok bs1 =>
          rw [hstep] at hok
          exact ih writeFails bs1 bs' hok
            (processLogTx_replay writeFails bs log bs1 hstep hr)

theorem pureProcessBatch_replay (bs : BatchState) (logs : List RawLog)
    (hr : bs.derived = replay bs.rawLog) :
    (pureProcessBatch bs logs).derived =
      replay (pureProcessBatch bs logs).rawLog := by
  exact processBatchTx_replay logs (fun _ => false) bs _
    (processBatchTx_noFail logs bs) hr

theorem pureProcessBatch_skips_present (logs : List RawLog) :
    ∀ bs : BatchState,
      (∀ log ∈ logs, ∀ e : DecodedEvent, decode log = .ok e →
        e.key ∈ rawKeys bs.rawLog) →
      (pureProcessBatch bs logs).rawLog = bs.rawLog ∧
      (pureProcessBatch bs logs).derived = bs.derived := by
  induction logs with
  | nil => intro bs _; exact ⟨rfl, rfl⟩
  | cons log rest ih =>
      intro bs hall
      rw [pureProcessBatch]
      have hstep : (pureProcessLog bs log).rawLog = bs.rawLog ∧
          (pureProcessLog bs log).derived = bs.derived := by
        cases hdec : decode log with
        | error err => simp [pureProcessLog, hdec]
        | ok e =>
            simp only [pureProcessLog, hdec, pureHandleEvent]
            rw [if_pos (hall log (List.mem_cons_self log rest) e hdec)]
            exact ⟨rfl, rfl⟩
      have hall' : ∀ l ∈ rest, ∀ e : DecodedEvent, decode l = .ok e →
          e.key ∈ rawKeys (pureProcessLog bs log).rawLog := by
        intro l hl e hdec
        rw [hstep.1]
        exact hall l (List.mem_cons_of_mem log hl) e hdec
      have hrest := ih _ hall'
      exact ⟨hrest.1.trans hstep.1, hrest.2.trans hstep.2⟩

theorem rollbackState_replay (st : IndexerState) :
    (rollbackState st).data.derived = replay (rollbackState st).data.rawLog :=
  rfl

theorem detectAndRollback_replay (env : Env) (st : IndexerState)
    (h : st.data.derived = replay st.data.rawLog) :
    (detectAndRollback env st).data.derived =
      replay (detectAndRollback env st).data.rawLog := by
  cases hcb : st.checkpoint.lastCheckpointBlockHash with
  | none => simp only [detectAndRollback, hcb]; exact h
  | some hsh =>
      simp only [detectAndRollback, hcb]
      by_cases heq : env.hashAt st.checkpoint.lastCheckpointBlock = hsh
      · rw [if_pos heq]; exact h
      · rw [if_neg heq]; exact rollbackState_replay st

theorem driverCycle_replay (cfg : Config) (env : Env) (st : IndexerState)
    (h : st.data.derived = replay st.data.rawLog) :
    (driverCycle cfg env st).data.derived =
      replay (driverCycle cfg env st).data.rawLog := by
  rw [driverCycle]
  have h1 := detectAndRollback_replay env st h
  by_cases hto : batchToBlock cfg env (detectAndRollback env st) ≤
      (detectAndRollback env st).checkpoint.lastProcessedBlock
  · rw [if_pos hto]; exact h1
  · rw [if_neg hto]
    cases htx : processBatchTx env.writeFails (detectAndRollback env st).data
        (env.logsIn (nextFromBlock (detectAndRollback env st))
          (batchToBlock cfg env (detectAndRollback env st))) with
    | error e => exact h1
    | ok bs =>
        simp only [commitBatch]
        exact processBatchTx_replay _ _ _ _ htx h1

theorem runCycles_replay (cfg : Config) (envs : List Env) :
    ∀ st : IndexerState, st.data.derived = replay st.data.rawLog →
      (runCycles cfg st envs).data.derived =
        replay (runCycles cfg st envs).data.rawLog := by
  induction envs with
  | nil => intro st h; exact h
  | cons env rest ih =>
      intro st h
      rw [runCycles]
      exact ih _ (driverCycle_replay cfg env st h)

/-- C5: processing the same batch of logs through the Event Handlers a
second time (simulating redelivery) leaves the DerivedEntity state — and
the raw event log — identical to processing it once: every decodable log
of the batch is already recorded after the first pass, so the second pass
short-circuits on the unique constraint throughout. -/
theorem batch_idempotent (bs : BatchState) (logs : List RawLog) :
    (pureProcessBatch (pureProcessBatch bs logs) logs).derived =
      (pureProcessBatch bs logs).derived ∧
    (pureProcessBatch (pureProcessBatch bs logs) logs).rawLog =
      (pureProcessBatch bs logs).rawLog := by
  have hall : ∀ log ∈ logs, ∀ e : DecodedEvent, decode log = .ok e →
      e.key ∈ rawKeys (pureProcessBatch bs logs).rawLog :=
    fun log hl e hdec => pureProcessBatch_records_ok logs bs log hl e hdec
  have h := pureProcessBatch_skips_present logs _ hall
  exact ⟨h.2, h.1⟩

/-- C7: in a batch containing a log that fails to decode, the transaction
still commits (the batch is not halted), every log that fails to decode
is kept as a dead-letter record for later reprocessing and is never
recorded as a RawEvent (every recorded RawEvent stems from a log that
decoded successfully), every well-formed log of the batch ends up recorded,
and the recorded events remain the replay source for the derived state. -/
theorem decode_failure_isolated (bs : BatchState) (logs : List RawLog) :
    processBatchTx (fun _ => false) bs logs = .ok (pureProcessBatch bs logs) ∧
    (∀ log ∈ logs, ∀ err : DecodeError, decode log = .error err →
      log ∈ (pureProcessBatch bs logs).deadLetter) ∧
    (∀ log ∈ logs, ∀ e : DecodedEvent, decode log = .ok e →
      e.key ∈ rawKeys (pureProcessBatch bs logs).rawLog) ∧
    (∀ re ∈ (pureProcessBatch bs logs).rawLog,
      re ∈ bs.rawLog ∨ ∃ log ∈ logs, ∃ e : DecodedEvent,
        decode log = .ok e ∧ re = e.toRawEvent) ∧
    (bs.derived = replay bs.rawLog →
      (pureProcessBatch bs logs).derived =
        replay (pureProcessBatch bs logs).rawLog) :=
  ⟨processBatchTx_noFail logs bs,
   fun log hl err hdec =>
     pureProcessBatch_deadLetters_errors logs bs log hl err hdec,
   fun log hl e hdec => pureProcessBatch_records_ok logs bs log hl e hdec,
   fun re hre => pureProcessBatch_provenance logs bs re hre,
   fun hr => pureProcessBatch_replay bs logs hr⟩

/-- Witness for C7: in the concrete five-log batch whose third log is
malformed, the batch transaction still succeeds, the malformed log lands
in the dead letter, and the fourth log's event is recorded. -/
theorem decode_failure_isolated_witness :
    decode badLog = .error .badData ∧
    badLog ∈ (pureProcessBatch emptyBatch fiveLogs).deadLetter ∧
    processBatchTx (fun _ => false) emptyBatch fiveLogs =
      .ok (pureProcessBatch emptyBatch fiveLogs) ∧
    ("t4", 0) ∈ rawKeys (pureProcessBatch emptyBatch fiveLogs).rawLog :=
  ⟨by decide,
   (decode_failure_isolated emptyBatch fiveLogs).2.1 badLog (by decide)
     .badData (by decide),
   (decode_failure_isolated emptyBatch fiveLogs).1,
   (decode_failure_isolated emptyBatch fiveLogs).2.2.1 (goodLog 53 "t4")
     (by decide)
     { blockNumber := 53, txHash := "t4", logIndex := 0,
       args := mkArgs 1 ['0', 'x', 'a'] 2 20 }
     (by decide)⟩

/-- C4: for every driver history (any configuration, any sequence of
per-cycle chain environments, starting from the initial state), replaying
all stored RawEvents in stored order against the empty DerivedEntity state
yields exactly the DerivedEntity state reached by the incremental
application; in particular, immediately after a reorg rollback the
DerivedEntity state equals what replaying the remaining RawEvents
produces. -/
theorem replay_equivalence (cfg : Config) (envs : List Env) :
    replay (runCycles cfg initialState envs).data.rawLog =
      (runCycles cfg initialState envs).data.derived ∧
    ∀ st : IndexerState,
      (rollbackState st).data.derived =
        replay (rollbackState st).data.rawLog :=
  ⟨(runCycles_replay cfg envs initialState rfl).symm,
   fun st => rollbackState_replay st⟩

theorem commitBatch_checkpoint (cfg : Config) (env : Env) (toBlock : Nat)
    (st : IndexerState) (bs : BatchState) :
    (commitBatch cfg env toBlock st bs).checkpoint.lastProcessedBlock =
      toBlock ∧
    ((commitBatch cfg env toBlock st bs).checkpoint.lastCheckpointBlock =
        toBlock / cfg.checkpointInterval * cfg.checkpointInterval ∨
      (commitBatch cfg env toBlock st bs).checkpoint.lastCheckpointBlock =
        st.checkpoint.lastCheckpointBlock) := by
  simp only [commitBatch]
  by_cases hc : st.checkpoint.lastCheckpointBlock <
      toBlock / cfg.checkpointInterval * cfg.checkpointInterval
  · rw [if_pos hc]; exact ⟨rfl, Or.inl rfl⟩
  · rw [if_neg hc]; exact ⟨rfl, Or.inr rfl⟩

theorem detectAndRollback_inv (env : Env) (st : IndexerState)
    (h : st.checkpoint.lastCheckpointBlock ≤
      st.checkpoint.lastProcessedBlock + 1) :
    (detectAndRollback env st).checkpoint.lastCheckpointBlock ≤
      (detectAndRollback env st).checkpoint.lastProcessedBlock + 1 := by
  cases hcb : st.checkpoint.lastCheckpointBlockHash with
  | none => simp only [detectAndRollback, hcb]; exact h
  | some hsh =>
      simp only [detectAndRollback, hcb]
      by_cases heq : env.hashAt st.checkpoint.lastCheckpointBlock = hsh
      · rw [if_pos heq]; exact h
      · rw [if_neg heq]
        show st.checkpoint.lastCheckpointBlock ≤
          st.checkpoint.lastCheckpointBlock - 1 + 1
        omega

theorem driverCycle_inv (cfg : Config) (env : Env) (st : IndexerState)
    (h : st.checkpoint.lastCheckpointBlock ≤
      st.checkpoint.lastProcessedBlock + 1) :
    (driverCycle cfg env st).checkpoint.lastCheckpointBlock ≤
      (driverCycle cfg env st).checkpoint.lastProcessedBlock + 1 := by
  rw [driverCycle]
  have h1 := detectAndRollback_inv env st h
  by_cases hto : batchToBlock cfg env (detectAndRollback env st) ≤
      (detectAndRollback env st).checkpoint.lastProcessedBlock
  · rw [if_pos hto]; exact h1
  · rw [if_neg hto]
    cases htx : processBatchTx env.writeFails (detectAndRollback env st).data
        (env.logsIn (nextFromBlock (detectAndRollback env st))
          (batchToBlock cfg env (detectAndRollback env st))) with
    | error e => exact h1
    | ok bs =>
        show (commitBatch cfg env
            (batchToBlock cfg env (detectAndRollback env st))
            (detectAndRollback env st) bs).checkpoint.lastCheckpointBlock ≤
          (commitBatch cfg env
            (batchToBlock cfg env (detectAndRollback env st))
            (detectAndRollback env st) bs).checkpoint.lastProcessedBlock + 1
        have hcommit := commitBatch_checkpoint cfg env
          (batchToBlock cfg env (detectAndRollback env st))
          (detectAndRollback env st) bs
        have hdiv : batchToBlock cfg env (detectAndRollback env st) /
            cfg.checkpointInterval * cfg.checkpointInterval ≤
            batchToBlock cfg env (detectAndRollback env st) :=
          Nat.div_mul_le_self _ _
        omega

/-- C6 counterexample: the state reached by one committing driver cycle
(checkpointing at block 100) followed by one reorg-rollback cycle is a
reachable Checkpoint Store state with `lastCheckpointBlock = 100` but
`lastProcessedBlock = 99`, so the claimed invariant
`lastCheckpointBlock <= lastProcessedBlock` fails after a rollback. -/
theorem checkpoint_invariant_counterexample :
    Reached postRollbackState ∧
    ¬ (postRollbackState.checkpoint.lastCheckpointBlock ≤
        postRollbackState.checkpoint.lastProcessedBlock) :=
  ⟨Reached.cycle cfgEx envReorgCycle _
    (Reached.cycle cfgEx envFirstCycle _ Reached.init), by decide⟩

/-- C6 amended: every reachable Checkpoint Store state satisfies
`lastCheckpointBlock <= lastProcessedBlock + 1`. The invariant
`lastCheckpointBlock <= lastProcessedBlock` holds after the initial
zero-valued checkpoint and after every successful batch commit, but a
reorg rollback sets `lastProcessedBlock = lastCheckpointBlock - 1`,
leaving `lastCheckpointBlock` one above `lastProcessedBlock`. -/
theorem checkpoint_invariant_amended (st : IndexerState) (h : Reached st) :
    st.checkpoint.lastCheckpointBlock ≤
      st.checkpoint.lastProcessedBlock + 1 := by
  induction h with
  | init => decide
  | cycle cfg env st' hst ih => exact driverCycle_inv cfg env st' ih

/-- Witness for C6 amended: the concrete post-rollback reachable state
satisfies the weakened invariant (100 <= 99 + 1). -/
theorem checkpoint_invariant_amended_witness :
    postRollbackState.checkpoint.lastCheckpointBlock ≤
      postRollbackState.checkpoint.lastProcessedBlock + 1 :=
  checkpoint_invariant_amended postRollbackState
    (Reached.cycle cfgEx envReorgCycle _
      (Reached.cycle cfgEx envFirstCycle _ Reached.init))

theorem handlerMicroFinal_matches (bs : BatchState) (ms : MicroState)
    (e : DecodedEvent) (h : ms.recordedKeys = rawKeys bs.rawLog) :
    (handlerMicroFinal ms e).recordedKeys =
      rawKeys (pureHandleEvent bs e).rawLog := by
  rw [handlerMicroFinal, pureHandleEvent, h]
  by_cases hk : e.key ∈ rawKeys bs.rawLog
  · rw [if_pos hk, if_pos hk]; exact h
  · rw [if_neg hk, if_neg hk]
    simp [rawKeys, DecodedEvent.toRawEvent, RawEvent.key, DecodedEvent.key, h]

/-- C9: the handlers insert the RawEvent row before applying derived
mutations, so along every micro-state of a batch run — including the
pre-batch state that would persist after a crash mid-batch — any event
whose derived mutations have been applied has its RawEvent row present.
(The converse transient, recorded-but-not-yet-applied, is allowed.) -/
theorem applied_implies_recorded_invariant (ms : MicroState)
    (es : List DecodedEvent) (h : appliedImpliesRecorded ms) :
    ∀ ms' ∈ ms :: batchMicroTrace ms es, appliedImpliesRecorded ms' := by
  induction es generalizing ms with
  | nil =>
      intro ms' hms'
      rcases List.mem_cons.mp hms' with he | he
      · subst he; exact h
      · simp [batchMicroTrace] at he
  | cons e rest ih =>
      intro ms' hms'
      rcases List.mem_cons.mp hms' with he | he
      · subst he; exact h
      · rw [batchMicroTrace] at he
        rcases List.mem_append.mp he with h1 | h1
        · by_cases hk : e.key ∈ ms.recordedKeys
          · simp [handlerMicroStates, hk] at h1
          · simp only [handlerMicroStates, if_neg hk] at h1
            simp only [appliedImpliesRecorded] at h ⊢
            rcases List.mem_cons.mp h1 with h2 | h2
            · subst h2
              intro k hkk
              exact List.mem_append_left _ (h k hkk)
            · have h3 := List.mem_singleton.mp h2
              subst h3
              intro k hkk
              rcases List.mem_append.mp hkk with h3 | h3
              · exact List.mem_append_left _ (h k h3)
              · exact List.mem_append_right _ h3
        · have hfin : appliedImpliesRecorded (handlerMicroFinal ms e) := by
            rw [handlerMicroFinal]
            by_cases hk : e.key ∈ ms.recordedKeys
            · rw [if_pos hk]; exact h
            · rw [if_neg hk]
              simp only [appliedImpliesRecorded] at h ⊢
              intro k hkk
              rcases List.mem_append.mp hkk with h3 | h3
              · exact List.mem_append_left _ (h k h3)
              · exact List.mem_append_right _ h3
          exact ih (handlerMicroFinal ms e) hfin ms'
            (List.mem_cons_of_mem _ h1)

/-- Witness for C9: running the single event `evTen` from the empty
micro-state, the final micro-state of the trace (recorded and applied)
satisfies the invariant. -/
theorem applied_implies_recorded_invariant_witness :
    appliedImpliesRecorded
      { recordedKeys := [("tA", 0)], appliedKeys := [("tA", 0)] } :=
  applied_implies_recorded_invariant
    { recordedKeys := [], appliedKeys := [] } [evTen] (by decide)
    { recordedKeys := [("tA", 0)], appliedKeys := [("tA", 0)] } (by decide)

end FractionalStay
